import Mathlib

/-!
Verification of the `s3-archive-stream` module (`src/index.ts`).

The TypeScript source is shallowly embedded below.  JavaScript strings are
modelled as `List Char`; nullable values as `Option`; promise rejection as
`Except`; the external S3 client (its `GetObjectCommand` and
`ListObjectsV2Command` behaviours) as a record of response functions; and the
`while (true)` pagination loop — which need not terminate for an adversarial
provider — as fuel-indexed recursion whose exhaustion is the distinguished
outcome `hang`.  Every network call the code issues is recorded in a trace so
that "no call is made" properties are statable.
-/

namespace S3A

/-- JavaScript strings, modelled as lists of characters. -/
abbrev JsStr := List Char

/-- JavaScript `s.endsWith(c)` for a one-character suffix (false on `""`). -/
def strEndsWith (s : JsStr) (c : Char) : Bool :=
  match s.getLast? with
  | some x => x == c
  | none => false

/-- Helper for `lastIndexOf`: scan with current index and best match so far. -/
def lastIndexOfAux (c : Char) : JsStr → Nat → Int → Int
  | [], _, best => best
  | x :: xs, i, best => lastIndexOfAux c xs (i + 1) (if x == c then (i : Int) else best)

/-- JavaScript `s.lastIndexOf(c)`: index of the last occurrence, `-1` if none. -/
def lastIndexOf (s : JsStr) (c : Char) : Int :=
  lastIndexOfAux c s 0 (-1)

/-- JavaScript `s.substring(i)` for `i ≥ 0` (drop the first `i` characters);
`s.slice(n)` for `n ≥ 0` is the same operation. -/
def substringFrom (s : JsStr) (i : Nat) : JsStr :=
  s.drop i

/-- The `name ?? (preserveFolderStructure ? s3Key : s3Key.substring(s3Key.lastIndexOf('/') + 1))`
computation of `src/index.ts` line 190 (the `??` is nullish coalescing, so an
explicit empty-string name wins). -/
def archiveEntryNameFile (name : Option JsStr) (preserveFolderStructure : Bool)
    (s3Key : JsStr) : JsStr :=
  match name with
  | some n => n
  | none =>
    if preserveFolderStructure then s3Key
    else substringFrom s3Key (lastIndexOf s3Key '/' + 1).toNat

/-- The prefix normalisation of `src/index.ts` line 118:
`archiveEntry.s3Dir.endsWith('/') ? s3Dir : s3Dir + '/'`. -/
def normalizeDirPfx (s3Dir : JsStr) : JsStr :=
  if strEndsWith s3Dir '/' then s3Dir else s3Dir ++ ['/']

/-- A value caught by a `catch (e)` clause: either an exception thrown by the
AWS SDK `send` call (kept abstract as a string), or a local
`new Error(msg)`. -/
inductive JsException where
  | providerError (v : JsStr)
  | errorMsg (msg : JsStr)
deriving DecidableEq, Repr

/-- Message of the `Error` thrown at `src/index.ts` line 135. -/
def emptyDirMsg : JsStr := "The provided directory is empty.".data

/-- Message of the `Error` thrown at `src/index.ts` line 184. -/
def streamInvalidMsg : JsStr := "S3 Object stream is null or not a Readable stream.".data

/-- The module's error classes (`src/index.ts` lines 12-47), as a sum of the
four concrete subclasses of `S3ArchiveStreamError`, each carrying the fields
its constructor receives. -/
inductive S3ArchiveStreamError where
  | NoS3ClientProvidedForBucketError (s3BucketName : JsStr)
  | FailedToGetS3ObjectStreamError (s3Key : JsStr) (e : JsException)
  | InvalidS3KeyError (s3Key : JsStr)
  | FailedToListObjectsError (s3Key : JsStr) (e : JsException)
deriving DecidableEq, Repr

/-- A `ListObjectsV2CommandOutput`, restricted to the fields the module reads.
`KeyCount` stays optional because the code compares it with strict equality
(`=== 0`), under which an absent field differs from `0`; `Contents` entries
keep their optional `Key`; an absent `Contents` behaves as `[]` (the code
reads `Contents ?? []`) and an absent `IsTruncated` behaves as `false`. -/
structure ListPage where
  ContinuationToken : Option JsStr := none
  KeyCount : Option Nat := none
  NextContinuationToken : Option JsStr := none
  Contents : List (Option JsStr) := []
  IsTruncated : Bool := false
deriving DecidableEq, Repr

/-- Result shape of a successful `GetObjectCommand` send: the `Body` field is
absent, a non-`Readable` payload, or a `Readable` stream (identified
abstractly). -/
inductive GetBody where
  | missing
  | nonReadable (v : JsStr)
  | readable (streamId : Nat)
deriving DecidableEq, Repr

/-- The S3 client, modelled by what the module observes of it: the responses
of its `GetObjectCommand` and `ListObjectsV2Command` sends (an `Except.error`
is a rejected send).  The listing response is a function of the bucket, the
prefix and the continuation token of the request. -/
structure S3ClientModel where
  getObject : JsStr → JsStr → Except JsStr GetBody
  listObjects : JsStr → JsStr → Option JsStr → Except JsStr ListPage

/-- One network call issued through the client, for the call traces. -/
inductive S3Call where
  | listObjectsV2 (bucket pfx : JsStr) (token : Option JsStr)
  | getObject (bucket key : JsStr)
deriving DecidableEq, Repr

/-- `S3ArchiveStreamFileEntry` (`src/index.ts` lines 52-57): bucket, key,
optional explicit archive name, optional folder-structure flag (an absent
flag behaves as `false`), and the remaining pass-through `EntryData` fields
(`...rest`), kept abstract in the type parameter `M`. -/
structure S3ArchiveStreamFileEntry (M : Type) where
  s3BucketName : JsStr
  s3Key : JsStr
  name : Option JsStr := none
  preserveFolderStructure : Bool := false
  rest : M
deriving DecidableEq, Repr

/-- `S3ArchiveStreamDirEntry` (`src/index.ts` lines 59-63). -/
structure S3ArchiveStreamDirEntry (M : Type) where
  s3BucketName : JsStr
  s3Dir : JsStr
  preserveFolderStructure : Bool := false
  rest : M
deriving DecidableEq, Repr

/-- `S3ArchiveStreamEntry`, the union of the two entry shapes; the source
discriminates by presence of the `s3Dir` property, here an explicit tag. -/
inductive S3ArchiveStreamEntry (M : Type) where
  | file (f : S3ArchiveStreamFileEntry M)
  | dir (d : S3ArchiveStreamDirEntry M)
deriving DecidableEq, Repr

/-- Bucket of an entry (both shapes carry `s3BucketName`). -/
def entryBucket {M : Type} : S3ArchiveStreamEntry M → JsStr
  | .file f => f.s3BucketName
  | .dir d => d.s3BucketName

/-- One entry handed to `archive.append`: the object stream plus the
`{ ...rest, name: archiveEntryName }` data (`src/index.ts` line 193). -/
structure Appended (M : Type) where
  streamId : Nat
  name : JsStr
  rest : M
deriving DecidableEq, Repr

/-- Outcome of a fuel-limited computation: success, promise rejection with a
module error, or fuel exhaustion (`hang` models a pagination loop that never
observes a final page). -/
inductive BuildOutcome (α : Type) where
  | ok (a : α)
  | err (e : S3ArchiveStreamError)
  | hang
deriving DecidableEq, Repr

/-- Map over the success value of a `BuildOutcome`. -/
def BuildOutcome.map {α β : Type} (f : α → β) : BuildOutcome α → BuildOutcome β
  | .ok a => .ok (f a)
  | .err e => .err e
  | .hang => .hang

/-- Embed an `Except` (a computation that cannot hang) into `BuildOutcome`. -/
def exceptToOutcome {α : Type} : Except S3ArchiveStreamError α → BuildOutcome α
  | .ok a => .ok a
  | .error e => .err e

/-- The `else` branch of `appendArchiveEntries` (`src/index.ts` lines 166-196):
validate the key outside any `try`, then inside a `try` fetch the object,
validate the body and append the stream under the resolved name; any exception
inside the `try` is wrapped as `FailedToGetS3ObjectStreamError`.  Returns the
trace of network calls issued together with the result. -/
def appendOne {M : Type} (c : S3ClientModel) (f : S3ArchiveStreamFileEntry M) :
    List S3Call × Except S3ArchiveStreamError (Appended M) :=
  if f.s3Key == [] || strEndsWith f.s3Key '/' then
    ([], .error (.InvalidS3KeyError f.s3Key))
  else
    let call := S3Call.getObject f.s3BucketName f.s3Key
    match c.getObject f.s3BucketName f.s3Key with
    | .error e => ([call], .error (.FailedToGetS3ObjectStreamError f.s3Key (.providerError e)))
    | .ok .missing => ([call], .error (.FailedToGetS3ObjectStreamError f.s3Key (.errorMsg streamInvalidMsg)))
    | .ok (.nonReadable _) => ([call], .error (.FailedToGetS3ObjectStreamError f.s3Key (.errorMsg streamInvalidMsg)))
    | .ok (.readable s) =>
      ([call], .ok { streamId := s,
                     name := archiveEntryNameFile f.name f.preserveFolderStructure f.s3Key,
                     rest := f.rest })

end S3A

namespace S3A

example : archiveEntryNameFile none false "a/b/c.txt".data = "c.txt".data := by decide

example : archiveEntryNameFile none true "a/b/c.txt".data = "a/b/c.txt".data := by decide

example : archiveEntryNameFile (some "x".data) true "a/b/c.txt".data = "x".data := by decide

example : archiveEntryNameFile none false "abc".data = "abc".data := by decide

example : normalizeDirPfx "a//".data = "a//".data := by decide

example : normalizeDirPfx "a".data = "a/".data := by decide

end S3A

namespace S3A

/-- The check of `src/index.ts` line 134 on one listing response:
`listObjectsResponse.ContinuationToken == null && listObjectsResponse.KeyCount === 0`
(loose equality with `null` on the echoed request token, strict equality with
`0` on the optional key count). -/
def isEmptyDirPage (page : ListPage) : Bool :=
  page.ContinuationToken.isNone && page.KeyCount == some 0

/-- Entries a single listing page contributes to `directoryEntries`
(`src/index.ts` lines 140-152): for each element of `Contents ?? []` whose
`Key` is present, does not end in `'/'` and is not `''`, push
`{ ...rest, name: preserveFolderStructure ? Key : Key.slice(prefix.length), s3Key: Key, s3BucketName }`.
The pushed record carries no `preserveFolderStructure` (the destructuring at
line 117 removed it), hence the default `false`. -/
def pageEntryOfKey {M : Type} (s3BucketName pfx : JsStr) (preserveFolderStructure : Bool)
    (rest : M) (key? : Option JsStr) : Option (S3ArchiveStreamFileEntry M) :=
  match key? with
  | none => none
  | some key =>
    if !strEndsWith key '/' && key != [] then
      some { s3BucketName := s3BucketName,
             s3Key := key,
             name := some (if preserveFolderStructure then key else substringFrom key pfx.length),
             rest := rest }
    else none

/-- All entries one listing page contributes, in listing order. -/
def pageEntries {M : Type} (s3BucketName pfx : JsStr) (preserveFolderStructure : Bool)
    (rest : M) (page : ListPage) : List (S3ArchiveStreamFileEntry M) :=
  page.Contents.filterMap (pageEntryOfKey s3BucketName pfx preserveFolderStructure rest)

/-- The `while (true)` pagination loop of `src/index.ts` lines 124-161, with
explicit continuation token, accumulated `directoryEntries` and fuel.  Each
iteration sends `ListObjectsV2Command`; a rejected send, or the
`The provided directory is empty.` error thrown when the response has a null
`ContinuationToken` and `KeyCount === 0`, is caught and wrapped as
`FailedToListObjectsError(prefix, e)`; otherwise the page's qualifying keys
are appended and the loop breaks when `IsTruncated` is falsy, else recurses
on `NextContinuationToken`. -/
def expandDirLoop {M : Type} (c : S3ClientModel) (s3BucketName pfx : JsStr)
    (preserveFolderStructure : Bool) (rest : M) :
    Option JsStr → List (S3ArchiveStreamFileEntry M) → Nat →
    List S3Call × BuildOutcome (List (S3ArchiveStreamFileEntry M))
  | _, _, 0 => ([], .hang)
  | token, acc, fuel + 1 =>
    let call := S3Call.listObjectsV2 s3BucketName pfx token
    match c.listObjects s3BucketName pfx token with
    | .error e => ([call], .err (.FailedToListObjectsError pfx (.providerError e)))
    | .ok page =>
      if isEmptyDirPage page then
        ([call], .err (.FailedToListObjectsError pfx (.errorMsg emptyDirMsg)))
      else
        let acc2 := acc ++ pageEntries s3BucketName pfx preserveFolderStructure rest page
        if !page.IsTruncated then ([call], .ok acc2)
        else
          let r := expandDirLoop c s3BucketName pfx preserveFolderStructure rest
                     page.NextContinuationToken acc2 fuel
          (call :: r.1, r.2)

/-- Directory expansion of one `S3ArchiveStreamDirEntry` (`src/index.ts`
lines 116-161): normalise the prefix, then run the pagination loop from a
null continuation token and an empty `directoryEntries` list. -/
def expandDir {M : Type} (c : S3ClientModel) (d : S3ArchiveStreamDirEntry M) (fuel : Nat) :
    List S3Call × BuildOutcome (List (S3ArchiveStreamFileEntry M)) :=
  expandDirLoop c d.s3BucketName (normalizeDirPfx d.s3Dir) d.preserveFolderStructure d.rest
    none [] fuel

/-- The for-loop of `appendArchiveEntries` restricted to file-shaped entries
(a directory's `directoryEntries` are always file-shaped, so the recursive
call at `src/index.ts` line 165 only ever takes this path; the lemma
`appendFiles_eq_appendArchiveEntries` below identifies the two). -/
def appendFiles {M : Type} (c : S3ClientModel) :
    List (S3ArchiveStreamFileEntry M) →
    List S3Call × Except S3ArchiveStreamError (List (Appended M))
  | [] => ([], .ok [])
  | f :: tl =>
    let r1 := appendOne c f
    match r1.2 with
    | .error e => (r1.1, .error e)
    | .ok a =>
      let r2 := appendFiles c tl
      (r1.1 ++ r2.1,
       match r2.2 with
       | .error e => .error e
       | .ok l => .ok (a :: l))

/-- `appendArchiveEntries` (`src/index.ts` lines 111-199): process the entry
list in order; a `s3Dir` entry is expanded and its `directoryEntries` are fed
back through the same routine (here `appendFiles`, identical on file-shaped
lists), a file entry is fetched and appended.  The first rejection aborts the
rest of the list; the returned list collects what was handed to
`archive.append`, in order, when every entry succeeds. -/
def appendArchiveEntries {M : Type} (c : S3ClientModel) (fuel : Nat) :
    List (S3ArchiveStreamEntry M) →
    List S3Call × BuildOutcome (List (Appended M))
  | [] => ([], .ok [])
  | .dir d :: tl =>
    let r1 := expandDir c d fuel
    match r1.2 with
    | .hang => (r1.1, .hang)
    | .err e => (r1.1, .err e)
    | .ok fs =>
      let r2 := appendFiles c fs
      match r2.2 with
      | .error e => (r1.1 ++ r2.1, .err e)
      | .ok l1 =>
        let r3 := appendArchiveEntries c fuel tl
        (r1.1 ++ r2.1 ++ r3.1, r3.2.map (fun l2 => l1 ++ l2))
  | .file f :: tl =>
    let r1 := appendOne c f
    match r1.2 with
    | .error e => (r1.1, .err e)
    | .ok a =>
      let r2 := appendArchiveEntries c fuel tl
      (r1.1 ++ r2.1, r2.2.map (fun l => a :: l))

/-- Push one entry into the bucket-grouping accumulator: append to the group
with the same bucket name if present, else start a new group at the end
(insertion order of a JS object with string keys). -/
def pushEntry {M : Type} (acc : List (JsStr × List (S3ArchiveStreamEntry M)))
    (e : S3ArchiveStreamEntry M) : List (JsStr × List (S3ArchiveStreamEntry M)) :=
  match acc with
  | [] => [(entryBucket e, [e])]
  | (b, es) :: tl =>
    if b == entryBucket e then (b, es ++ [e]) :: tl else (b, es) :: pushEntry tl e

/-- The `entries.reduce` grouping of `src/index.ts` lines 202-208: partition
entries by `s3BucketName`, preserving each group's input order and the order
of first appearance of the buckets. -/
def groupedS3Buckets {M : Type} (entries : List (S3ArchiveStreamEntry M)) :
    List (JsStr × List (S3ArchiveStreamEntry M)) :=
  entries.foldl pushEntry []

/-- `Record<S3BucketName, S3Client> | S3Client`: the client routing argument. -/
inductive ClientRouting where
  | single (c : S3ClientModel)
  | mapping (m : List (JsStr × S3ClientModel))

/-- First-match association lookup (a JS object read `m[bucket]`). -/
def lookupClient (m : List (JsStr × S3ClientModel)) (bucket : JsStr) : Option S3ClientModel :=
  match m with
  | [] => none
  | (b, c) :: tl => if b == bucket then some c else lookupClient tl bucket

/-- Client resolution for one bucket group (`src/index.ts` lines 215-219):
a single client is used regardless of the bucket; a mapping is indexed by the
bucket name and a missing entry (`undefined`, not an `S3Client`) raises
`NoS3ClientProvidedForBucketError`. -/
def resolveClient (routing : ClientRouting) (bucket : JsStr) :
    Except S3ArchiveStreamError S3ClientModel :=
  match routing with
  | .single c => .ok c
  | .mapping m =>
    match lookupClient m bucket with
    | some c => .ok c
    | none => .error (.NoS3ClientProvidedForBucketError bucket)

/-- One group task of the `Promise.all` (`src/index.ts` lines 213-222):
resolve the client (throwing inside the async callback rejects that group's
promise before any I/O), then run `appendArchiveEntries` on the group. -/
def runGroup {M : Type} (routing : ClientRouting) (fuel : Nat)
    (g : JsStr × List (S3ArchiveStreamEntry M)) :
    List S3Call × BuildOutcome (List (Appended M)) :=
  match resolveClient routing g.1 with
  | .error e => ([], .err e)
  | .ok c => appendArchiveEntries c fuel g.2

/-- Terminal state of the returned archiver stream: `finalized` (the `.then`
ran `archive.finalize()`), `aborted e` (the `.catch` ran
`archive.destroy(e); archive.abort()`), or `pending` (some group never
settles, so neither handler runs). -/
inductive BuildStatus where
  | finalized
  | aborted (e : S3ArchiveStreamError)
  | pending
deriving DecidableEq, Repr

/-- What one archive build produces in the model: the network calls issued,
the entries handed to `archive.append` by groups that ran to successful
completion (in group order — one admissible schedule of the concurrent
groups), and the terminal status of the stream. -/
structure BuildResult (M : Type) where
  calls : List S3Call
  appended : List (Appended M)
  status : BuildStatus
deriving Repr

/-- Leftmost rejection among the group outcomes: the error `Promise.all`
rejects with in the modelled schedule. -/
def firstGroupError {M : Type} :
    List (List S3Call × BuildOutcome (List (Appended M))) → Option S3ArchiveStreamError
  | [] => none
  | r :: tl =>
    match r.2 with
    | .err e => some e
    | _ => firstGroupError tl

/-- True when some group outcome hangs. -/
def anyHang {M : Type} : List (List S3Call × BuildOutcome (List (Appended M))) → Bool
  | [] => false
  | r :: tl =>
    match r.2 with
    | .hang => true
    | _ => anyHang tl

/-- Terminal stream status from the group outcomes: the `.catch` aborts on a
rejection, otherwise the `.then` finalizes once every group has resolved. -/
def buildStatus {M : Type} (rs : List (List S3Call × BuildOutcome (List (Appended M)))) :
    BuildStatus :=
  match firstGroupError rs with
  | some e => .aborted e
  | none => if anyHang rs then .pending else .finalized

/-- `s3ArchiveStream` (`src/index.ts` lines 97-233): group the entries by
bucket, run every group (resolving its client first), then finalize the
archiver if all groups resolved and destroy/abort it with the first rejection
otherwise.  The function itself always returns the stream handle — errors
reach the caller only through `status`, never as a synchronous throw or a
rejection to await. -/
def s3ArchiveStream {M : Type} (routing : ClientRouting)
    (entries : List (S3ArchiveStreamEntry M)) (fuel : Nat) : BuildResult M :=
  let rs := (groupedS3Buckets entries).map (runGroup routing fuel)
  { calls := (rs.map Prod.fst).flatten,
    appended := (rs.filterMap fun r =>
      match r.2 with
      | .ok l => some l
      | _ => none).flatten,
    status := buildStatus rs }

end S3A

namespace S3A

/-- The recursive call `appendArchiveEntries(s3Client, directoryEntries)` at
`src/index.ts` line 165 receives file-shaped entries only; on those the
routine coincides with `appendFiles`, so the embedding's use of `appendFiles`
in the `dir` branch is exactly the source's self-call. -/
theorem appendFiles_eq_appendArchiveEntries {M : Type} (c : S3ClientModel) (fuel : Nat)
    (fs : List (S3ArchiveStreamFileEntry M)) :
    appendArchiveEntries c fuel (fs.map .file) =
      ((appendFiles c fs).1, exceptToOutcome (appendFiles c fs).2) := by
  induction fs with
  | nil => rfl
  | cons f tl ih =>
    simp only [List.map_cons, appendArchiveEntries, appendFiles]
    cases h1 : (appendOne c f).2 with
    | error e => simp [h1, exceptToOutcome]
    | ok a =>
      simp only [h1, ih]
      cases h2 : (appendFiles c tl).2 with
      | error e => simp [h1, h2, exceptToOutcome, BuildOutcome.map]
      | ok l => simp [h1, h2, exceptToOutcome, BuildOutcome.map]

/-- `lastIndexOfAux` never changes its running best on a list without the
sought character. -/
theorem lastIndexOfAux_of_not_mem {c : Char} {s : JsStr} (h : c ∉ s) (i : Nat) (best : Int) :
    lastIndexOfAux c s i best = best := by
  induction s generalizing i best with
  | nil => rfl
  | cons x tl ih =>
    simp only [List.mem_cons, not_or] at h
    have hx : (x == c) = false := by
      cases hxc : x == c with
      | false => rfl
      | true => exact absurd (eq_comm.mp (eq_of_beq hxc)) h.1
    simp [lastIndexOfAux, hx, ih h.2]

/-- `lastIndexOfAux` over an append splits into two passes. -/
theorem lastIndexOfAux_append (c : Char) (xs ys : JsStr) (i : Nat) (best : Int) :
    lastIndexOfAux c (xs ++ ys) i best =
      lastIndexOfAux c ys (i + xs.length) (lastIndexOfAux c xs i best) := by
  induction xs generalizing i best with
  | nil => simp [lastIndexOfAux]
  | cons x tl ih =>
    simp only [List.cons_append, lastIndexOfAux, List.append_eq, List.length_cons]
    rw [ih]
    have : i + 1 + tl.length = i + (tl.length + 1) := by omega
    rw [this]

/-- `lastIndexOf` finds no occurrence in a string without the character. -/
theorem lastIndexOf_of_not_mem {c : Char} {s : JsStr} (h : c ∉ s) :
    lastIndexOf s c = -1 :=
  lastIndexOfAux_of_not_mem h 0 (-1)

/-- `lastIndexOf` on `a ++ "/" ++ b` with separator-free `b` points at that
separator. -/
theorem lastIndexOf_append_sep {b : JsStr} (a : JsStr) (h : '/' ∉ b) :
    lastIndexOf (a ++ '/' :: b) '/' = (a.length : Int) := by
  unfold lastIndexOf
  rw [lastIndexOfAux_append]
  simp only [lastIndexOfAux, beq_self_eq_true, if_true]
  rw [lastIndexOfAux_of_not_mem h]
  omega

end S3A

namespace S3A

/-- C2: the in-archive name of a file entry follows the precedence of
`src/index.ts` lines 142 and 189-190: (a) an explicit `name` always wins;
(b) else with `preserveFolderStructure` the name is the full `s3Key`;
(c) else, for a standalone file entry, it is the final path segment after the
last separator; (d) for a directory-expanded entry the name recorded by the
expander (and therefore, via (a), the name used when it is appended) is the
full key under preservation and the key with the listing prefix stripped
otherwise; (e) a key with no separator and no preservation flag resolves to
itself. -/
theorem C2_archive_name_precedence {M : Type} :
    (∀ (n : JsStr) (p : Bool) (k : JsStr), archiveEntryNameFile (some n) p k = n) ∧
    (∀ k : JsStr, archiveEntryNameFile none true k = k) ∧
    (∀ a b : JsStr, '/' ∉ b → archiveEntryNameFile none false (a ++ '/' :: b) = b) ∧
    (∀ (bucket pfx : JsStr) (p : Bool) (rest : M) (page : ListPage)
       (f : S3ArchiveStreamFileEntry M),
       f ∈ pageEntries bucket pfx p rest page →
       archiveEntryNameFile f.name f.preserveFolderStructure f.s3Key =
         (if p then f.s3Key else substringFrom f.s3Key pfx.length)) ∧
    (∀ k : JsStr, '/' ∉ k → archiveEntryNameFile none false k = k) := by
  refine ⟨fun n p k => rfl, fun k => rfl, ?_, ?_, ?_⟩
  · intro a b hb
    simp only [archiveEntryNameFile, if_false, Bool.false_eq_true, substringFrom]
    rw [lastIndexOf_append_sep a hb]
    have h1 : ((a.length : Int) + 1).toNat = (a ++ ['/']).length := by
      simp [List.length_append]
    rw [h1]
    have h2 : a ++ '/' :: b = (a ++ ['/']) ++ b := by simp
    rw [h2, List.drop_left]
  · intro bucket pfx p rest page f hf
    simp only [pageEntries, List.mem_filterMap] at hf
    obtain ⟨key?, _, hkey⟩ := hf
    cases key? with
    | none => simp [pageEntryOfKey] at hkey
    | some key =>
      simp only [pageEntryOfKey] at hkey
      by_cases hc : (!strEndsWith key '/' && key != []) = true
      · rw [if_pos hc] at hkey
        cases hkey
        rfl
      · rw [if_neg hc] at hkey
        cases hkey
  · intro k hk
    simp only [archiveEntryNameFile, if_false, Bool.false_eq_true, substringFrom]
    rw [lastIndexOf_of_not_mem hk]
    rfl

/-- Witness for C2 at concrete inputs: explicit name wins; `"ab/c.txt"` with
no flags resolves to `"c.txt"`; a directory-expanded key `"dir/x.txt"` listed
under prefix `"dir/"` without preservation resolves to `"x.txt"`; a plain key
resolves to itself. -/
theorem C2_witness :
    archiveEntryNameFile (some "x".data) true "a/b".data = "x".data ∧
    archiveEntryNameFile none false ("ab".data ++ '/' :: "c.txt".data) = "c.txt".data ∧
    archiveEntryNameFile
      (S3ArchiveStreamFileEntry.name
        { s3BucketName := "b".data, s3Key := "dir/x.txt".data,
          name := some "x.txt".data, rest := (0 : Nat) })
      false "dir/x.txt".data = substringFrom "dir/x.txt".data "dir/".data.length ∧
    archiveEntryNameFile none false "abc".data = "abc".data :=
  ⟨(C2_archive_name_precedence (M := Nat)).1 _ _ _,
   (C2_archive_name_precedence (M := Nat)).2.2.1 "ab".data "c.txt".data (by decide),
   (C2_archive_name_precedence (M := Nat)).2.2.2.1 "b".data "dir/".data false 0
     { ContinuationToken := none, KeyCount := some 1, NextContinuationToken := none,
       Contents := [some "dir/x.txt".data], IsTruncated := false }
     { s3BucketName := "b".data, s3Key := "dir/x.txt".data,
       name := some "x.txt".data, rest := (0 : Nat) } (by decide),
   (C2_archive_name_precedence (M := Nat)).2.2.2.2 "abc".data (by decide)⟩

/-- Written from the spec's words (§4.2, for C9): a string ends with exactly
one trailing separator when its last character is a separator and the
character before it, if any, is not. -/
def specEndsWithExactlyOneSep (s : JsStr) : Bool :=
  match s.reverse with
  | [] => false
  | x :: tl => x == '/' && tl.head? != some '/'

/-- C9 counterexample: the input `"a//"` already ends with `'/'`, so the code
keeps it unchanged, and the prefix used for listing and name-stripping ends
with two separators, not exactly one. -/
theorem C9_counterexample :
    normalizeDirPfx "a//".data = "a//".data ∧
    specEndsWithExactlyOneSep (normalizeDirPfx "a//".data) = false := by decide

/-- C9 amended: the normalised prefix always ends with at least one
separator; a separator is appended exactly when the input does not already
end with one, and an input already ending with one or more separators is used
unchanged. -/
theorem C9_normalize_trailing_sep (s3Dir : JsStr) :
    strEndsWith (normalizeDirPfx s3Dir) '/' = true ∧
    (strEndsWith s3Dir '/' = true → normalizeDirPfx s3Dir = s3Dir) ∧
    (strEndsWith s3Dir '/' = false → normalizeDirPfx s3Dir = s3Dir ++ ['/']) := by
  refine ⟨?_, fun h => by simp [normalizeDirPfx, h], fun h => by simp [normalizeDirPfx, h]⟩
  unfold normalizeDirPfx
  cases h : strEndsWith s3Dir '/' with
  | true => simpa using h
  | false =>
    simp only [Bool.false_eq_true, if_false, strEndsWith, List.getLast?_concat]
    rfl

/-- Witness for C9 amended at concrete inputs. -/
theorem C9_witness :
    strEndsWith (normalizeDirPfx "a".data) '/' = true ∧
    normalizeDirPfx "a/".data = "a/".data ∧
    normalizeDirPfx "a".data = "a".data ++ ['/'] :=
  ⟨(C9_normalize_trailing_sep "a".data).1,
   (C9_normalize_trailing_sep "a/".data).2.1 (by decide),
   (C9_normalize_trailing_sep "a".data).2.2 (by decide)⟩

end S3A

namespace S3A

/-- C7: a file-shaped entry whose key is empty or separator-terminated is
rejected with `InvalidS3KeyError` before any network call — the check at
`src/index.ts` lines 169-171 precedes the `try`, the returned trace is empty
for every client, and no other entry ever produces `InvalidS3KeyError`. -/
theorem C7_invalid_key_no_fetch {M : Type} (c : S3ClientModel)
    (f : S3ArchiveStreamFileEntry M) :
    ((f.s3Key = [] ∨ strEndsWith f.s3Key '/' = true) →
      appendOne c f = ([], .error (.InvalidS3KeyError f.s3Key))) ∧
    (∀ k, (appendOne c f).2 = .error (.InvalidS3KeyError k) →
      (f.s3Key = [] ∨ strEndsWith f.s3Key '/' = true) ∧ k = f.s3Key) := by
  constructor
  · intro h
    have hb : (f.s3Key == [] || strEndsWith f.s3Key '/') = true := by
      rcases h with h | h
      · simp [h]
      · simp [h]
    simp only [appendOne, hb, if_true]
  · intro k hk
    by_cases hb : (f.s3Key == [] || strEndsWith f.s3Key '/') = true
    · refine ⟨?_, ?_⟩
      · rcases Bool.or_eq_true_iff.mp hb with h | h
        · exact Or.inl (by simpa using h)
        · exact Or.inr h
      · simp only [appendOne, hb, if_true] at hk
        cases hk
        rfl
    · exfalso
      simp only [appendOne, hb, if_false, Bool.false_eq_true] at hk
      cases hg : c.getObject f.s3BucketName f.s3Key with
      | error e => rw [hg] at hk; cases hk
      | ok body => cases body <;> rw [hg] at hk <;> cases hk

/-- C8: inside the worker's `try` (`src/index.ts` lines 173-196),
`FailedToGetS3ObjectStreamError(s3Key, cause)` arises exactly for the three
fetch sub-cases — the send rejects, the body is absent, or the body is not a
`Readable` — and on a readable body the entry is appended under the resolved
name with no further failure path: the archive writer's own errors are
events on the returned stream, outside this control flow, and are never
rewrapped as fetch failures. -/
theorem C8_fetch_failure_taxonomy {M : Type} (c : S3ClientModel)
    (f : S3ArchiveStreamFileEntry M) :
    ((∃ cause, (appendOne c f).2 = .error (.FailedToGetS3ObjectStreamError f.s3Key cause)) ↔
      ((f.s3Key == [] || strEndsWith f.s3Key '/') = false ∧
        ((∃ e, c.getObject f.s3BucketName f.s3Key = .error e) ∨
         c.getObject f.s3BucketName f.s3Key = .ok .missing ∨
         (∃ v, c.getObject f.s3BucketName f.s3Key = .ok (.nonReadable v))))) ∧
    (∀ s, (f.s3Key == [] || strEndsWith f.s3Key '/') = false →
      c.getObject f.s3BucketName f.s3Key = .ok (.readable s) →
      (appendOne c f).2 = .ok
        { streamId := s,
          name := archiveEntryNameFile f.name f.preserveFolderStructure f.s3Key,
          rest := f.rest }) := by
  constructor
  · constructor
    · rintro ⟨cause, hk⟩
      by_cases hb : (f.s3Key == [] || strEndsWith f.s3Key '/') = true
      · simp only [appendOne, hb, if_true] at hk
        cases hk
      · refine ⟨by simpa using hb, ?_⟩
        simp only [appendOne, hb, if_false, Bool.false_eq_true] at hk
        cases hg : c.getObject f.s3BucketName f.s3Key with
        | error e => exact Or.inl ⟨e, rfl⟩
        | ok body =>
          cases body with
          | missing => exact Or.inr (Or.inl rfl)
          | nonReadable v => exact Or.inr (Or.inr ⟨v, rfl⟩)
          | readable s => rw [hg] at hk; cases hk
    · rintro ⟨hb, hcase⟩
      simp only [appendOne, hb, if_false, Bool.false_eq_true]
      rcases hcase with ⟨e, hg⟩ | hg | ⟨v, hg⟩ <;> rw [hg] <;> exact ⟨_, rfl⟩
  · intro s hb hg
    simp only [appendOne, hb, if_false, Bool.false_eq_true, hg]

/-- C6: client routing (`src/index.ts` lines 215-219) — a single client is
returned for every bucket; a mapping returns its entry for the bucket; a
missing mapping entry rejects the group with
`NoS3ClientProvidedForBucketError(bucket)`; and a group whose client fails to
resolve issues no network call at all (its trace is empty). -/
theorem C6_client_routing {M : Type} :
    (∀ (c : S3ClientModel) (bucket : JsStr), resolveClient (.single c) bucket = .ok c) ∧
    (∀ m (bucket : JsStr) c, lookupClient m bucket = some c →
      resolveClient (.mapping m) bucket = .ok c) ∧
    (∀ m (bucket : JsStr), lookupClient m bucket = none →
      resolveClient (.mapping m) bucket =
        .error (.NoS3ClientProvidedForBucketError bucket)) ∧
    (∀ (routing : ClientRouting) (fuel : Nat)
       (g : JsStr × List (S3ArchiveStreamEntry M)) e,
      resolveClient routing g.1 = .error e → runGroup routing fuel g = ([], .err e)) := by
  refine ⟨fun c bucket => rfl, ?_, ?_, ?_⟩
  · intro m bucket c h
    simp [resolveClient, h]
  · intro m bucket h
    simp [resolveClient, h]
  · intro routing fuel g e h
    simp [runGroup, h]

end S3A

namespace S3A

/-- Fixture client: every fetch succeeds with stream `7`; every listing
returns a single final page containing the key `d/x`. -/
def fixClientOk : S3ClientModel :=
  { getObject := fun _ _ => .ok (.readable 7),
    listObjects := fun _ _ _ => .ok
      { ContinuationToken := none, KeyCount := some 1, NextContinuationToken := none,
        Contents := [some "d/x".data], IsTruncated := false } }

/-- Fixture client: every send rejects. -/
def fixClientBad : S3ClientModel :=
  { getObject := fun _ _ => .error "denied".data,
    listObjects := fun _ _ _ => .error "denied".data }

/-- Witness for C7: the separator-terminated key `a/` is rejected with an
empty call trace even on a client whose fetches would succeed. -/
theorem C7_witness :
    appendOne fixClientOk
      { s3BucketName := "b".data, s3Key := "a/".data, rest := (0 : Nat) } =
      ([], .error (.InvalidS3KeyError "a/".data)) :=
  (C7_invalid_key_no_fetch fixClientOk
    { s3BucketName := "b".data, s3Key := "a/".data, rest := (0 : Nat) }).1
    (Or.inr (by decide))

/-- Witness for C8: a rejected fetch of a valid key yields a
`FailedToGetS3ObjectStreamError`, and a readable body is appended under the
resolved name. -/
theorem C8_witness :
    (∃ cause, (appendOne fixClientBad
      { s3BucketName := "b".data, s3Key := "a/x.txt".data, rest := (0 : Nat) }).2 =
      .error (.FailedToGetS3ObjectStreamError "a/x.txt".data cause)) ∧
    (appendOne fixClientOk
      { s3BucketName := "b".data, s3Key := "a/x.txt".data, rest := (0 : Nat) }).2 =
      .ok { streamId := 7, name := "x.txt".data, rest := 0 } :=
  ⟨(C8_fetch_failure_taxonomy fixClientBad
      { s3BucketName := "b".data, s3Key := "a/x.txt".data, rest := (0 : Nat) }).1.mpr
      ⟨by decide, Or.inl ⟨"denied".data, rfl⟩⟩,
   (C8_fetch_failure_taxonomy fixClientOk
      { s3BucketName := "b".data, s3Key := "a/x.txt".data, rest := (0 : Nat) }).2
      7 (by decide) rfl⟩

/-- Witness for C6: a single client serves any bucket; a mapping serves its
own bucket and rejects an unmapped one, whose group then issues no call. -/
theorem C6_witness :
    resolveClient (.single fixClientOk) "b".data = .ok fixClientOk ∧
    resolveClient (.mapping [("b1".data, fixClientOk)]) "b1".data = .ok fixClientOk ∧
    resolveClient (.mapping [("b1".data, fixClientOk)]) "b2".data =
      .error (.NoS3ClientProvidedForBucketError "b2".data) ∧
    runGroup (M := Nat) (.mapping [("b1".data, fixClientOk)]) 1 ("b2".data, []) =
      ([], .err (.NoS3ClientProvidedForBucketError "b2".data)) :=
  ⟨(C6_client_routing (M := Nat)).1 fixClientOk "b".data,
   (C6_client_routing (M := Nat)).2.1 [("b1".data, fixClientOk)] "b1".data fixClientOk rfl,
   (C6_client_routing (M := Nat)).2.2.1 [("b1".data, fixClientOk)] "b2".data rfl,
   (C6_client_routing (M := Nat)).2.2.2 (.mapping [("b1".data, fixClientOk)]) 1
     ("b2".data, []) (.NoS3ClientProvidedForBucketError "b2".data) rfl⟩

end S3A

namespace S3A

/-- A chain of listing responses the client produces from a starting request
token: each page answers the current token, every page but the last is
truncated, the last is not, and the token carried to the next request is the
page's `NextContinuationToken`. -/
inductive PageChain (c : S3ClientModel) (bucket pfx : JsStr) :
    Option JsStr → List ListPage → Prop
  | last (t : Option JsStr) (p : ListPage) :
      c.listObjects bucket pfx t = .ok p → p.IsTruncated = false →
      PageChain c bucket pfx t [p]
  | step (t : Option JsStr) (p : ListPage) (ps : List ListPage) :
      c.listObjects bucket pfx t = .ok p → p.IsTruncated = true →
      PageChain c bucket pfx p.NextContinuationToken ps →
      PageChain c bucket pfx t (p :: ps)

/-- The listing requests a page chain induces, one per page, threading the
continuation token forward. -/
def chainCalls (bucket pfx : JsStr) : Option JsStr → List ListPage → List S3Call
  | _, [] => []
  | t, p :: ps =>
    .listObjectsV2 bucket pfx t :: chainCalls bucket pfx p.NextContinuationToken ps

/-- The pagination loop, run over a full page chain none of whose pages
triggers the empty-directory check and with fuel for every page, issues
exactly the chain's token-threaded requests and accumulates every page's
qualifying entries in listing order. -/
theorem expandDirLoop_chain {M : Type} (c : S3ClientModel) (bucket pfx : JsStr)
    (preserve : Bool) (rest : M) (t : Option JsStr) (ps : List ListPage)
    (hchain : PageChain c bucket pfx t ps) :
    ∀ (acc : List (S3ArchiveStreamFileEntry M)) (fuel : Nat),
      (∀ p ∈ ps, isEmptyDirPage p = false) →
      ps.length ≤ fuel →
      expandDirLoop c bucket pfx preserve rest t acc fuel =
        (chainCalls bucket pfx t ps,
         .ok (acc ++ (ps.map (pageEntries bucket pfx preserve rest)).flatten)) := by
  induction hchain with
  | last t p hsend htrunc =>
    intro acc fuel hok hfuel
    cases fuel with
    | zero => simp at hfuel
    | succ n =>
      have hemp : isEmptyDirPage p = false := hok p (List.mem_singleton_self p)
      simp [expandDirLoop, hsend, hemp, htrunc, chainCalls]
  | step t p ps hsend htrunc _ ih =>
    intro acc fuel hok hfuel
    cases fuel with
    | zero => simp at hfuel
    | succ n =>
      have hemp : isEmptyDirPage p = false := hok p (List.mem_cons_self p ps)
      have hok' : ∀ q ∈ ps, isEmptyDirPage q = false := fun q hq =>
        hok q (List.mem_cons_of_mem p hq)
      have hfuel' : ps.length ≤ n := by
        simp only [List.length_cons] at hfuel
        omega
      simp only [expandDirLoop, hsend, hemp, htrunc, Bool.not_true, Bool.false_eq_true,
        if_false, chainCalls]
      rw [ih (acc ++ pageEntries bucket pfx preserve rest p) n hok' hfuel']
      simp [List.append_assoc]

end S3A

namespace S3A

/-- Keys of the entries one page yields: exactly the listed keys that are
present, do not end in a separator and are not empty, in listing order. -/
theorem pageEntries_keys {M : Type} (bucket pfx : JsStr) (preserve : Bool) (rest : M)
    (page : ListPage) :
    (pageEntries bucket pfx preserve rest page).map (fun f => f.s3Key) =
      (page.Contents.filterMap id).filter (fun k => !strEndsWith k '/' && k != []) := by
  unfold pageEntries
  generalize page.Contents = ls
  induction ls with
  | nil => rfl
  | cons key? tl ih =>
    rw [List.filterMap_cons, List.filterMap_cons]
    cases key? with
    | none => simpa [pageEntryOfKey] using ih
    | some key =>
      cases hc : (!strEndsWith key '/' && key != []) with
      | true =>
        simp only [pageEntryOfKey, hc, if_true, id_eq, List.map_cons, List.filter_cons, ih]
      | false =>
        simp only [pageEntryOfKey, hc, Bool.false_eq_true, if_false, id_eq,
          List.filter_cons, ih]

/-- C4: for every directory entry, expansion over a full page chain — the
provider answering each token-threaded request with the next page, truncated
pages continuing the loop until a non-truncated one — succeeds, issues
exactly the chain's requests carrying the continuation token forward, and
yields per page exactly the listed keys that are present, non-empty and not
separator-terminated, each exactly once, in listing order. -/
theorem C4_pagination {M : Type} (c : S3ClientModel) (d : S3ArchiveStreamDirEntry M)
    (ps : List ListPage) (fuel : Nat)
    (hchain : PageChain c d.s3BucketName (normalizeDirPfx d.s3Dir) none ps)
    (hok : ∀ p ∈ ps, isEmptyDirPage p = false)
    (hfuel : ps.length ≤ fuel) :
    expandDir c d fuel =
      (chainCalls d.s3BucketName (normalizeDirPfx d.s3Dir) none ps,
       .ok ((ps.map (pageEntries d.s3BucketName (normalizeDirPfx d.s3Dir)
              d.preserveFolderStructure d.rest)).flatten)) ∧
    ∀ page ∈ ps,
      (pageEntries d.s3BucketName (normalizeDirPfx d.s3Dir) d.preserveFolderStructure
          d.rest page).map (fun f => f.s3Key) =
        (page.Contents.filterMap id).filter (fun k => !strEndsWith k '/' && k != []) := by
  constructor
  · have h := expandDirLoop_chain c d.s3BucketName (normalizeDirPfx d.s3Dir)
      d.preserveFolderStructure d.rest none ps hchain [] fuel hok hfuel
    simpa [expandDir] using h
  · intro page _
    exact pageEntries_keys _ _ _ _ page

/-- Fixture two-page listing client: the first request (no token) returns a
truncated page with keys `d/a.txt` and the folder marker `d/sub/`, carrying
token `T`; the request with token `T` returns the final page with key
`d/sub/b.txt`. -/
def fixClientPaged : S3ClientModel :=
  { getObject := fun _ _ => .ok (.readable 7),
    listObjects := fun _ _ t =>
      if t == none then
        .ok { ContinuationToken := none, KeyCount := some 2,
              NextContinuationToken := some "T".data,
              Contents := [some "d/a.txt".data, some "d/sub/".data],
              IsTruncated := true }
      else if t == some "T".data then
        .ok { ContinuationToken := some "T".data, KeyCount := some 1,
              NextContinuationToken := none,
              Contents := [some "d/sub/b.txt".data],
              IsTruncated := false }
      else .error "bad token".data }

/-- First fixture page. -/
def fixPage1 : ListPage :=
  { ContinuationToken := none, KeyCount := some 2,
    NextContinuationToken := some "T".data,
    Contents := [some "d/a.txt".data, some "d/sub/".data],
    IsTruncated := true }

/-- Second fixture page. -/
def fixPage2 : ListPage :=
  { ContinuationToken := some "T".data, KeyCount := some 1,
    NextContinuationToken := none,
    Contents := [some "d/sub/b.txt".data],
    IsTruncated := false }

/-- Witness for C4: the two-page fixture listing under prefix `d/` issues the
two token-threaded requests and yields `d/a.txt` then `d/sub/b.txt` (the
folder marker `d/sub/` is skipped), each once, in listing order, with
prefix-stripped names. -/
theorem C4_witness :
    expandDir fixClientPaged
      { s3BucketName := "b".data, s3Dir := "d".data, rest := (0 : Nat) } 2 =
      ([.listObjectsV2 "b".data "d/".data none,
        .listObjectsV2 "b".data "d/".data (some "T".data)],
       .ok [{ s3BucketName := "b".data, s3Key := "d/a.txt".data,
              name := some "a.txt".data, rest := 0 },
            { s3BucketName := "b".data, s3Key := "d/sub/b.txt".data,
              name := some "sub/b.txt".data, rest := 0 }]) :=
  ((C4_pagination fixClientPaged
      { s3BucketName := "b".data, s3Dir := "d".data, rest := (0 : Nat) }
      [fixPage1, fixPage2] 2
      (PageChain.step none fixPage1 [fixPage2] rfl rfl
        (PageChain.last (some "T".data) fixPage2 rfl rfl))
      (by decide) (by decide)).1).trans (by decide)

end S3A

namespace S3A

/-- C3: the `The provided directory is empty.` failure (wrapped by the
`catch` as `FailedToListObjectsError(prefix, ·)`, the code's representation
of the spec's `EmptyDirectory(prefix)`) is raised by a loop step exactly when
the listing response has a null `ContinuationToken` (non-continued) and
`KeyCount === 0`; a response with zero matches that is continued or truncated
but not in that state is no error and the loop proceeds to the next page with
the forwarded token; conversely the empty-directory error only ever arises
from a response in that state; and an expansion error rejects the whole
entry-list run of its group. -/
theorem C3_empty_directory {M : Type} (c : S3ClientModel) (bucket pfx : JsStr)
    (preserve : Bool) (rest : M) :
    (∀ (t : Option JsStr) (acc : List (S3ArchiveStreamFileEntry M)) (fuel : Nat)
       (page : ListPage),
      c.listObjects bucket pfx t = .ok page → isEmptyDirPage page = true →
      expandDirLoop c bucket pfx preserve rest t acc (fuel + 1) =
        ([.listObjectsV2 bucket pfx t],
         .err (.FailedToListObjectsError pfx (.errorMsg emptyDirMsg)))) ∧
    (∀ (t : Option JsStr) (acc : List (S3ArchiveStreamFileEntry M)) (fuel : Nat)
       (page : ListPage),
      c.listObjects bucket pfx t = .ok page → isEmptyDirPage page = false →
      page.IsTruncated = true →
      expandDirLoop c bucket pfx preserve rest t acc (fuel + 1) =
        (.listObjectsV2 bucket pfx t ::
           (expandDirLoop c bucket pfx preserve rest page.NextContinuationToken
             (acc ++ pageEntries bucket pfx preserve rest page) fuel).1,
         (expandDirLoop c bucket pfx preserve rest page.NextContinuationToken
             (acc ++ pageEntries bucket pfx preserve rest page) fuel).2)) ∧
    (∀ (t : Option JsStr) (acc : List (S3ArchiveStreamFileEntry M)) (fuel : Nat),
      (expandDirLoop c bucket pfx preserve rest t acc fuel).2 =
        .err (.FailedToListObjectsError pfx (.errorMsg emptyDirMsg)) →
      ∃ (u : Option JsStr) (page : ListPage),
        c.listObjects bucket pfx u = .ok page ∧ isEmptyDirPage page = true) ∧
    (∀ (d : S3ArchiveStreamDirEntry M) (tl : List (S3ArchiveStreamEntry M))
       (fuel : Nat) (tr : List S3Call) (e : S3ArchiveStreamError),
      expandDir c d fuel = (tr, .err e) →
      appendArchiveEntries c fuel (.dir d :: tl) = (tr, .err e)) := by
  refine ⟨?_, ?_, ?_, ?_⟩
  · intro t acc fuel page hsend hcond
    simp only [expandDirLoop, hsend, hcond, if_true]
  · intro t acc fuel page hsend hcond htr
    simp only [expandDirLoop, hsend, hcond, Bool.false_eq_true, if_false, htr,
      Bool.not_true]
  · intro t acc fuel
    induction fuel generalizing t acc with
    | zero =>
      intro h
      simp [expandDirLoop] at h
    | succ n ih =>
      intro h
      simp only [expandDirLoop] at h
      cases hsend : c.listObjects bucket pfx t with
      | error e =>
        simp only [hsend] at h
        simp at h
      | ok page =>
        simp only [hsend] at h
        cases hcond : isEmptyDirPage page with
        | true => exact ⟨t, page, hsend, hcond⟩
        | false =>
          simp only [hcond, Bool.false_eq_true, if_false] at h
          cases htr : page.IsTruncated with
          | false => simp [htr] at h
          | true =>
            simp only [htr, Bool.not_true, Bool.false_eq_true, if_false] at h
            exact ih page.NextContinuationToken _ h
  · intro d tl fuel tr e h
    simp [appendArchiveEntries, h]

/-- Fixture page: non-continued, zero key count, not truncated. -/
def fixPageEmpty : ListPage :=
  { ContinuationToken := none, KeyCount := some 0, NextContinuationToken := none,
    Contents := [], IsTruncated := false }

/-- Fixture client whose every listing returns `fixPageEmpty`. -/
def fixClientEmptyDir : S3ClientModel :=
  { getObject := fun _ _ => .ok (.readable 7),
    listObjects := fun _ _ _ => .ok fixPageEmpty }

/-- Witness for C3: a non-continued zero-count response fails the expansion
with the wrapped empty-directory error after one request, and a non-empty
truncated first response makes the loop continue with the forwarded token. -/
theorem C3_witness :
    expandDirLoop fixClientEmptyDir "b".data "d/".data false (0 : Nat) none [] 1 =
      ([.listObjectsV2 "b".data "d/".data none],
       .err (.FailedToListObjectsError "d/".data (.errorMsg emptyDirMsg))) ∧
    expandDirLoop fixClientPaged "b".data "d/".data false (0 : Nat) none [] 2 =
      (.listObjectsV2 "b".data "d/".data none ::
        (expandDirLoop fixClientPaged "b".data "d/".data false 0 fixPage1.NextContinuationToken
          ([] ++ pageEntries "b".data "d/".data false 0 fixPage1) 1).1,
       (expandDirLoop fixClientPaged "b".data "d/".data false 0 fixPage1.NextContinuationToken
          ([] ++ pageEntries "b".data "d/".data false 0 fixPage1) 1).2) :=
  ⟨(C3_empty_directory fixClientEmptyDir "b".data "d/".data false 0).1
      none [] 0 fixPageEmpty rfl (by decide),
   (C3_empty_directory fixClientPaged "b".data "d/".data false 0).2.1
      none [] 1 fixPage1 rfl (by decide) rfl⟩

end S3A

namespace S3A

/-- Composition of `BuildOutcome.map`. -/
theorem BuildOutcome.map_map {α β γ : Type} (f : α → β) (g : β → γ) (o : BuildOutcome α) :
    (o.map f).map g = o.map (fun a => g (f a)) := by
  cases o <;> rfl

/-- `firstGroupError` is `none` exactly when no group rejected. -/
theorem firstGroupError_eq_none_iff {M : Type}
    (rs : List (List S3Call × BuildOutcome (List (Appended M)))) :
    firstGroupError rs = none ↔ ∀ r ∈ rs, ∀ e, r.2 ≠ .err e := by
  induction rs with
  | nil => simp [firstGroupError]
  | cons r tl ih =>
    cases ho : r.2 with
    | ok l => simp [firstGroupError, ho, ih]
    | err e => simp [firstGroupError, ho]
    | hang => simp [firstGroupError, ho, ih]

/-- A first group error is some group's rejection. -/
theorem firstGroupError_mem {M : Type}
    (rs : List (List S3Call × BuildOutcome (List (Appended M))))
    (e : S3ArchiveStreamError) (h : firstGroupError rs = some e) :
    ∃ r ∈ rs, r.2 = .err e := by
  induction rs with
  | nil => simp [firstGroupError] at h
  | cons r tl ih =>
    cases ho : r.2 with
    | ok l =>
      rw [firstGroupError, ho] at h
      obtain ⟨r', hmem, hr'⟩ := ih h
      exact ⟨r', List.mem_cons_of_mem r hmem, hr'⟩
    | err e' =>
      rw [firstGroupError, ho] at h
      cases h
      exact ⟨r, List.mem_cons_self r tl, ho⟩
    | hang =>
      rw [firstGroupError, ho] at h
      obtain ⟨r', hmem, hr'⟩ := ih h
      exact ⟨r', List.mem_cons_of_mem r hmem, hr'⟩

/-- `anyHang` is `false` exactly when no group outcome hangs. -/
theorem anyHang_eq_false_iff {M : Type}
    (rs : List (List S3Call × BuildOutcome (List (Appended M)))) :
    anyHang rs = false ↔ ∀ r ∈ rs, r.2 ≠ .hang := by
  induction rs with
  | nil => simp [anyHang]
  | cons r tl ih =>
    cases ho : r.2 with
    | ok l => simp [anyHang, ho, ih]
    | err e => simp [anyHang, ho, ih]
    | hang => simp [anyHang, ho]

/-- C1: the writer is finalized exactly when every bucket group resolves
successfully; it is destroyed/aborted with error `e` exactly when `e` is the
first rejection among the groups (the `.catch` of `src/index.ts` lines
226-229, which also guarantees `finalize` is not called on that path); and
any abort error originates from some group.  The build function itself is
total — `s3ArchiveStream` returns the stream for every input and errors
appear only in the terminal `status`, never as a value the caller must
catch. -/
theorem C1_finalize_iff_groups_ok {M : Type} (routing : ClientRouting)
    (entries : List (S3ArchiveStreamEntry M)) (fuel : Nat) :
    ((s3ArchiveStream routing entries fuel).status = .finalized ↔
      ∀ r ∈ (groupedS3Buckets entries).map (runGroup routing fuel), ∃ l, r.2 = .ok l) ∧
    (∀ e, (s3ArchiveStream routing entries fuel).status = .aborted e ↔
      firstGroupError ((groupedS3Buckets entries).map (runGroup routing fuel)) = some e) ∧
    (∀ e, (s3ArchiveStream routing entries fuel).status = .aborted e →
      ∃ r ∈ (groupedS3Buckets entries).map (runGroup routing fuel), r.2 = .err e) := by
  have hstat : (s3ArchiveStream routing entries fuel).status =
      buildStatus ((groupedS3Buckets entries).map (runGroup routing fuel)) := rfl
  set rs := (groupedS3Buckets entries).map (runGroup routing fuel) with hrs
  refine ⟨?_, ?_, ?_⟩
  · rw [hstat]
    unfold buildStatus
    cases hfe : firstGroupError rs with
    | some e =>
      simp only []
      constructor
      · intro h; cases h
      · intro hall
        obtain ⟨r, hmem, hr⟩ := firstGroupError_mem rs e hfe
        obtain ⟨l, hl⟩ := hall r hmem
        rw [hl] at hr
        cases hr
    | none =>
      cases hah : anyHang rs with
      | true =>
        simp only [if_true]
        constructor
        · intro h; cases h
        · intro hall
          exfalso
          have : ∀ r ∈ rs, r.2 ≠ .hang := by
            intro r hmem
            obtain ⟨l, hl⟩ := hall r hmem
            simp [hl]
          rw [← anyHang_eq_false_iff] at this
          rw [hah] at this
          cases this
      | false =>
        simp only [Bool.false_eq_true, if_false]
        constructor
        · intro _
          intro r hmem
          have hne : ∀ e, r.2 ≠ .err e := (firstGroupError_eq_none_iff rs).mp hfe r hmem
          have hnh : r.2 ≠ .hang := (anyHang_eq_false_iff rs).mp hah r hmem
          cases ho : r.2 with
          | ok l => exact ⟨l, rfl⟩
          | err e => exact absurd ho (hne e)
          | hang => exact absurd ho hnh
        · intro _; trivial
  · intro e
    rw [hstat]
    unfold buildStatus
    cases hfe : firstGroupError rs with
    | some e' =>
      simp only []
      constructor
      · intro h
        cases h
        rfl
      · intro h
        cases h
        rfl
    | none =>
      constructor
      · intro h
        cases hah : anyHang rs with
        | true => rw [hah] at h; cases h
        | false => rw [hah] at h; simp at h
      · intro h; cases h
  · intro e h
    rw [hstat] at h
    unfold buildStatus at h
    cases hfe : firstGroupError rs with
    | some e' =>
      rw [hfe] at h
      cases h
      exact firstGroupError_mem rs e hfe
    | none =>
      rw [hfe] at h
      cases hah : anyHang rs with
      | true => rw [hah] at h; cases h
      | false => rw [hah] at h; simp at h

/-- C10: an empty entry list produces no groups, so `Promise.all([])`
resolves at once: the build issues no listing or fetch call, appends nothing,
and finalizes the writer — a valid empty archive, not an error. -/
theorem C10_empty_entries_finalize {M : Type} (routing : ClientRouting) (fuel : Nat) :
    s3ArchiveStream (M := M) routing [] fuel =
      { calls := [], appended := [], status := .finalized } := rfl

end S3A

namespace S3A

/-- Mapping the identity over a `BuildOutcome`. -/
theorem BuildOutcome.map_id {α : Type} (o : BuildOutcome α) : (o.map fun a => a) = o := by
  cases o <;> rfl

/-- A successful run of `appendFiles` appends exactly one entry per input
file, each the result of its own fetch, in input order. -/
theorem appendFiles_forall2 {M : Type} (c : S3ClientModel)
    (fs : List (S3ArchiveStreamFileEntry M)) (l : List (Appended M))
    (h : (appendFiles c fs).2 = .ok l) :
    List.Forall₂ (fun f a => (appendOne c f).2 = .ok a) fs l := by
  induction fs generalizing l with
  | nil =>
    simp only [appendFiles] at h
    cases h
    exact List.Forall₂.nil
  | cons f tl ih =>
    simp only [appendFiles] at h
    cases h1 : (appendOne c f).2 with
    | error e =>
      simp only [h1] at h
      exact absurd h (by simp)
    | ok a =>
      simp only [h1] at h
      cases h2 : (appendFiles c tl).2 with
      | error e =>
        simp only [h2] at h
        exact absurd h (by simp)
      | ok l2 =>
        simp only [h2] at h
        cases h
        exact List.Forall₂.cons h1 (ih l2 h2)

/-- Running `appendArchiveEntries` on a concatenation whose first part
succeeds runs the parts in sequence: traces concatenate and the appended
entries of the first part come first. -/
theorem appendArchiveEntries_append {M : Type} (c : S3ClientModel) (fuel : Nat)
    (xs ys : List (S3ArchiveStreamEntry M)) :
    ∀ (tr : List S3Call) (l : List (Appended M)),
      appendArchiveEntries c fuel xs = (tr, .ok l) →
      appendArchiveEntries c fuel (xs ++ ys) =
        (tr ++ (appendArchiveEntries c fuel ys).1,
         (appendArchiveEntries c fuel ys).2.map (fun l2 => l ++ l2)) := by
  induction xs with
  | nil =>
    intro tr l h
    simp only [appendArchiveEntries] at h
    rw [Prod.mk.injEq] at h
    obtain ⟨htr, hl⟩ := h
    cases htr
    cases hl
    simp [BuildOutcome.map_id]
  | cons x tl ih =>
    intro tr l h
    cases x with
    | file f =>
      simp only [List.cons_append, List.append_eq, appendArchiveEntries] at h ⊢
      cases h1 : (appendOne c f).2 with
      | error e => simp [h1] at h
      | ok a =>
        simp only [h1] at h ⊢
        cases h2 : (appendArchiveEntries c fuel tl).2 with
        | err e => simp [h2, BuildOutcome.map] at h
        | hang => simp [h2, BuildOutcome.map] at h
        | ok l2 =>
          simp only [h2, BuildOutcome.map] at h
          rw [Prod.mk.injEq] at h
          obtain ⟨htr, hout⟩ := h
          cases hout
          have htl : appendArchiveEntries c fuel tl =
              ((appendArchiveEntries c fuel tl).1, .ok l2) := by
            rw [← h2]
          rw [ih (appendArchiveEntries c fuel tl).1 l2 htl, ← htr]
          cases ho : (appendArchiveEntries c fuel ys).2 <;>
            simp [BuildOutcome.map, List.append_assoc]
    | dir d =>
      simp only [List.cons_append, List.append_eq, appendArchiveEntries] at h ⊢
      cases he : (expandDir c d fuel).2 with
      | hang => simp [he] at h
      | err e => simp [he] at h
      | ok fs =>
        simp only [he] at h ⊢
        cases h2 : (appendFiles c fs).2 with
        | error e => simp [h2] at h
        | ok l1 =>
          simp only [h2] at h ⊢
          cases h3 : (appendArchiveEntries c fuel tl).2 with
          | err e => simp [h3, BuildOutcome.map] at h
          | hang => simp [h3, BuildOutcome.map] at h
          | ok l2 =>
            simp only [h3, BuildOutcome.map] at h
            rw [Prod.mk.injEq] at h
            obtain ⟨htr, hout⟩ := h
            cases hout
            have htl : appendArchiveEntries c fuel tl =
                ((appendArchiveEntries c fuel tl).1, .ok l2) := by
              rw [← h3]
            rw [ih (appendArchiveEntries c fuel tl).1 l2 htl, ← htr]
            cases ho : (appendArchiveEntries c fuel ys).2 <;>
              simp [BuildOutcome.map, List.append_assoc]

end S3A

namespace S3A

/-- Folding entries of one bucket into a singleton group extends that group
in order. -/
theorem foldl_pushEntry_same_bucket {M : Type} (bucket : JsStr) :
    ∀ (rest : List (S3ArchiveStreamEntry M)) (acc : List (S3ArchiveStreamEntry M)),
      (∀ e ∈ rest, entryBucket e = bucket) →
      rest.foldl pushEntry [(bucket, acc)] = [(bucket, acc ++ rest)] := by
  intro rest
  induction rest with
  | nil => intro acc _; simp
  | cons e tl ih =>
    intro acc hb
    have hbe : entryBucket e = bucket := hb e (List.mem_cons_self e tl)
    have hpush : pushEntry [(bucket, acc)] e = [(bucket, acc ++ [e])] := by
      simp [pushEntry, hbe]
    rw [List.foldl_cons, hpush,
      ih (acc ++ [e]) (fun e' h' => hb e' (List.mem_cons_of_mem e h'))]
    simp

/-- Grouping a non-empty entry list that references a single bucket yields
one group holding the entries in input order. -/
theorem groupedS3Buckets_single {M : Type} (bucket : JsStr) (e0 : S3ArchiveStreamEntry M)
    (tl : List (S3ArchiveStreamEntry M))
    (hb : ∀ e ∈ e0 :: tl, entryBucket e = bucket) :
    groupedS3Buckets (e0 :: tl) = [(bucket, e0 :: tl)] := by
  unfold groupedS3Buckets
  rw [List.foldl_cons]
  have h0 : pushEntry ([] : List (JsStr × List (S3ArchiveStreamEntry M))) e0 =
      [(entryBucket e0, [e0])] := rfl
  rw [h0, hb e0 (List.mem_cons_self e0 tl),
    foldl_pushEntry_same_bucket bucket tl [e0]
      (fun e' h' => hb e' (List.mem_cons_of_mem e0 h'))]
  rfl

/-- C5: within one bucket group, archive entries are appended in input order
— for a single-bucket, all-file-entry request the appended sequence pairs up
positionally with the input (entry `i` of the archive is the fetch result of
input entry `i`), and a directory entry's expanded entries are inserted
contiguously at the position the directory entry occupied, between the
appends of the entries before and after it. -/
theorem C5_group_order {M : Type} :
    (∀ (routing : ClientRouting) (c : S3ClientModel) (bucket : JsStr) (fuel : Nat)
       (f0 : S3ArchiveStreamFileEntry M) (fs : List (S3ArchiveStreamFileEntry M)),
      (∀ f ∈ f0 :: fs, f.s3BucketName = bucket) →
      resolveClient routing bucket = .ok c →
      (s3ArchiveStream routing ((f0 :: fs).map .file) fuel).status = .finalized →
      List.Forall₂ (fun f a => (appendOne c f).2 = .ok a) (f0 :: fs)
        (s3ArchiveStream routing ((f0 :: fs).map .file) fuel).appended) ∧
    (∀ (c : S3ClientModel) (fuel : Nat) (pre post : List (S3ArchiveStreamEntry M))
       (d : S3ArchiveStreamDirEntry M) (tr1 tr2 tr3 : List S3Call)
       (l1 l2 : List (Appended M)) (fs : List (S3ArchiveStreamFileEntry M)),
      appendArchiveEntries c fuel pre = (tr1, .ok l1) →
      expandDir c d fuel = (tr2, .ok fs) →
      appendFiles c fs = (tr3, .ok l2) →
      appendArchiveEntries c fuel (pre ++ .dir d :: post) =
        (tr1 ++ (tr2 ++ tr3 ++ (appendArchiveEntries c fuel post).1),
         (appendArchiveEntries c fuel post).2.map (fun l3 => l1 ++ (l2 ++ l3)))) := by
  constructor
  · intro routing c bucket fuel f0 fs hb hres hfin
    have hbe : ∀ e ∈ (f0 :: fs).map S3ArchiveStreamEntry.file, entryBucket e = bucket := by
      intro e he
      obtain ⟨f, hf, rfl⟩ := List.mem_map.mp he
      exact hb f hf
    have hgrp : groupedS3Buckets ((f0 :: fs).map S3ArchiveStreamEntry.file) =
        [(bucket, (f0 :: fs).map S3ArchiveStreamEntry.file)] := by
      rw [List.map_cons] at hbe ⊢
      exact groupedS3Buckets_single bucket _ _ hbe
    have hrun : runGroup routing fuel (bucket, (f0 :: fs).map S3ArchiveStreamEntry.file) =
        ((appendFiles c (f0 :: fs)).1, exceptToOutcome (appendFiles c (f0 :: fs)).2) := by
      simp only [runGroup, hres]
      exact appendFiles_eq_appendArchiveEntries c fuel (f0 :: fs)
    have hrs : (groupedS3Buckets ((f0 :: fs).map S3ArchiveStreamEntry.file)).map
        (runGroup routing fuel) =
        [((appendFiles c (f0 :: fs)).1, exceptToOutcome (appendFiles c (f0 :: fs)).2)] := by
      rw [hgrp, List.map_cons, List.map_nil, hrun]
    have hstat : (s3ArchiveStream routing ((f0 :: fs).map S3ArchiveStreamEntry.file)
        fuel).status =
        buildStatus [((appendFiles c (f0 :: fs)).1,
          exceptToOutcome (appendFiles c (f0 :: fs)).2)] := by
      simp only [s3ArchiveStream, hrs]
    have happ : (s3ArchiveStream routing ((f0 :: fs).map S3ArchiveStreamEntry.file)
        fuel).appended =
        ([((appendFiles c (f0 :: fs)).1,
          exceptToOutcome (appendFiles c (f0 :: fs)).2)].filterMap fun r =>
            match r.2 with
            | .ok l => some l
            | _ => none).flatten := by
      simp only [s3ArchiveStream, hrs]
    cases hout : (appendFiles c (f0 :: fs)).2 with
    | error e =>
      exfalso
      rw [hstat, hout] at hfin
      simp [buildStatus, firstGroupError, exceptToOutcome] at hfin
    | ok l =>
      rw [happ, hout]
      simp only [List.filterMap_cons, List.filterMap_nil, exceptToOutcome]
      have hflat : (List.flatten [l] : List (Appended M)) = l := by simp
      rw [hflat]
      exact appendFiles_forall2 c (f0 :: fs) l hout
  · intro c fuel pre post d tr1 tr2 tr3 l1 l2 fs h1 h2 h3
    rw [appendArchiveEntries_append c fuel pre (.dir d :: post) tr1 l1 h1]
    simp only [appendArchiveEntries, h2, h3]
    cases ho : (appendArchiveEntries c fuel post).2 <;>
      simp [BuildOutcome.map, List.append_assoc]

end S3A

namespace S3A

/-- Fixture directory entry under bucket `b`. -/
def fixDirEntry : S3ArchiveStreamDirEntry Nat :=
  { s3BucketName := "b".data, s3Dir := "d".data, rest := 0 }

/-- The entries the paged fixture listing expands `fixDirEntry` into. -/
def fixExpanded : List (S3ArchiveStreamFileEntry Nat) :=
  [{ s3BucketName := "b".data, s3Key := "d/a.txt".data,
     name := some "a.txt".data, rest := 0 },
   { s3BucketName := "b".data, s3Key := "d/sub/b.txt".data,
     name := some "sub/b.txt".data, rest := 0 }]

/-- Witness for C5: a two-file single-bucket build appends the two fetch
results in input order, and a directory entry's expansion is spliced
contiguously at its position. -/
theorem C5_witness :
    List.Forall₂ (fun f a => (appendOne fixClientOk f).2 = .ok a)
      [{ s3BucketName := "b".data, s3Key := "k1".data, rest := (0 : Nat) },
       { s3BucketName := "b".data, s3Key := "k2".data, rest := 0 }]
      (s3ArchiveStream (.single fixClientOk)
        ([{ s3BucketName := "b".data, s3Key := "k1".data, rest := (0 : Nat) },
          { s3BucketName := "b".data, s3Key := "k2".data, rest := 0 }].map .file)
        1).appended ∧
    appendArchiveEntries fixClientPaged 2 ([] ++ .dir fixDirEntry :: []) =
      ([] ++ ([.listObjectsV2 "b".data "d/".data none,
               .listObjectsV2 "b".data "d/".data (some "T".data)] ++
              [.getObject "b".data "d/a.txt".data,
               .getObject "b".data "d/sub/b.txt".data] ++
              (appendArchiveEntries fixClientPaged 2
                ([] : List (S3ArchiveStreamEntry Nat))).1),
       (appendArchiveEntries fixClientPaged 2
         ([] : List (S3ArchiveStreamEntry Nat))).2.map
         (fun l3 => [] ++
           ([{ streamId := 7, name := "a.txt".data, rest := 0 },
             { streamId := 7, name := "sub/b.txt".data, rest := 0 }] ++ l3))) :=
  ⟨(C5_group_order (M := Nat)).1 (.single fixClientOk) fixClientOk "b".data 1
      { s3BucketName := "b".data, s3Key := "k1".data, rest := (0 : Nat) }
      [{ s3BucketName := "b".data, s3Key := "k2".data, rest := 0 }]
      (by decide) rfl (by decide),
   (C5_group_order (M := Nat)).2 fixClientPaged 2 [] [] fixDirEntry []
      [.listObjectsV2 "b".data "d/".data none,
       .listObjectsV2 "b".data "d/".data (some "T".data)]
      [.getObject "b".data "d/a.txt".data,
       .getObject "b".data "d/sub/b.txt".data]
      [] [{ streamId := 7, name := "a.txt".data, rest := 0 },
          { streamId := 7, name := "sub/b.txt".data, rest := 0 }]
      fixExpanded rfl (by decide) rfl⟩

end S3A

namespace S3A

/-- Witness for C1: a one-file build with a resolving client finalizes; the
same entries with an empty client mapping abort with the routing error of
their (only, hence first) failing group, and that error is a group
rejection. -/
theorem C1_witness :
    (s3ArchiveStream (.single fixClientOk)
      [.file { s3BucketName := "b".data, s3Key := "k1".data, rest := (0 : Nat) }]
      1).status = .finalized ∧
    (s3ArchiveStream (.mapping [])
      [.file { s3BucketName := "b".data, s3Key := "k1".data, rest := (0 : Nat) }]
      1).status = .aborted (.NoS3ClientProvidedForBucketError "b".data) ∧
    ∃ r ∈ (groupedS3Buckets
        [S3ArchiveStreamEntry.file
          { s3BucketName := "b".data, s3Key := "k1".data, rest := (0 : Nat) }]).map
        (runGroup (.mapping []) 1),
      r.2 = .err (.NoS3ClientProvidedForBucketError "b".data) :=
  And.intro
    ((C1_finalize_iff_groups_ok (.single fixClientOk)
        [.file { s3BucketName := "b".data, s3Key := "k1".data, rest := (0 : Nat) }]
        1).1.mpr (by
      intro r hr
      have hx : (groupedS3Buckets
          [S3ArchiveStreamEntry.file
            { s3BucketName := "b".data, s3Key := "k1".data, rest := (0 : Nat) }]).map
          (runGroup (ClientRouting.single fixClientOk) 1) =
          [([S3Call.getObject "b".data "k1".data],
            BuildOutcome.ok [{ streamId := 7, name := "k1".data, rest := 0 }])] := by
        decide
      rw [hx, List.mem_singleton] at hr
      subst hr
      exact ⟨[{ streamId := 7, name := "k1".data, rest := 0 }], rfl⟩))
    (And.intro
      (((C1_finalize_iff_groups_ok (.mapping [])
          [.file { s3BucketName := "b".data, s3Key := "k1".data, rest := (0 : Nat) }]
          1).2.1 (.NoS3ClientProvidedForBucketError "b".data)).mpr (by decide))
      ((C1_finalize_iff_groups_ok (.mapping [])
          [.file { s3BucketName := "b".data, s3Key := "k1".data, rest := (0 : Nat) }]
          1).2.2 (.NoS3ClientProvidedForBucketError "b".data)
        (((C1_finalize_iff_groups_ok (.mapping [])
            [.file { s3BucketName := "b".data, s3Key := "k1".data, rest := (0 : Nat) }]
            1).2.1 (.NoS3ClientProvidedForBucketError "b".data)).mpr (by decide))))

end S3A
